import Mathlib

/-!
# monKEYmash — verification of the race-coordination spec against the client source

Shallow embedding of the three source files (`TypingInterface`, `MultiplayerRace`,
`App`/`ResultsScreen`) of the monKEYmash typing-race client, together with
spec-modelled definitions for the server-side coordinator that the repository
does not ship.  Times are rationals (milliseconds, as `Date.now()` values),
JS numbers carried by messages are rationals, and React's asynchronous state
updates are modelled by the event handlers reading the pre-event state and
returning the post-event state.
-/

namespace MonkeyMash

/-! ## TypingInterface embedding -/

/-- A keyboard event key: a single printable character, the Backspace key, or
any other special key (`key.length > 1` in the source). -/
inductive Key where
  | printable (c : Char)
  | backspace
  | special
deriving DecidableEq, Repr

/-- Whitespace test used by `trim` and the `\s+` split in `calculateStats`. -/
def isWs (c : Char) : Bool := c.isWhitespace

/-- JS `String.prototype.trim()` on a list of characters. -/
def jsTrim (s : List Char) : List Char :=
  ((s.dropWhile isWs).reverse.dropWhile isWs).reverse

/-- Helper of `countTokens`: the flag records whether the previous character
was inside a token, so that only token starts are counted. -/
def countTokensAux : Bool → List Char → Nat
  | _, [] => 0
  | inTok, c :: rest =>
    if isWs c then countTokensAux false rest
    else (if inTok then 0 else 1) + countTokensAux true rest

/-- Number of maximal whitespace-free runs of a character list: the number of
fields produced by `split(/\s+/)` on a string with no leading whitespace. -/
def countTokens (l : List Char) : Nat := countTokensAux false l

/-- `typed.trim().split(/\s+/).length` from `calculateStats`: JS returns
`[""]` (length 1) for the empty string, otherwise the whitespace-separated
tokens of the trimmed string. -/
def wordsTyped (typed : List Char) : Nat :=
  let t := jsTrim typed
  if t = [] then 1 else countTokens t

/-- JS `String.prototype.trim()` on a `String`. -/
def jsTrimStr (s : String) : String := ⟨jsTrim s.data⟩

/-- The `TypingStats` record produced by `calculateStats`. -/
structure TypingStats where
  wpm : ℤ
  accuracy : ℤ
  timeTaken : ℚ
  correctChars : ℕ
  incorrectChars : ℕ
  totalChars : ℕ
deriving DecidableEq, Repr

/-- `typed.split('').filter((char, idx) => char === text[idx]).length`:
characters of `typed` beyond `text.length` compare against `undefined` and are
never counted, which is exactly truncation by `zip`. -/
def correctCharCount (text typed : List Char) : ℕ :=
  List.countP (fun p => p.1 == p.2) (typed.zip text)

/-- `calculateStats` of `TypingInterface`.  `start` and `now` are `Date.now()`
values in milliseconds; `Math.round` on a non-negative rational is `round`. -/
def calculateStats (text typed : List Char) (_currentIdx : ℕ) (start now : ℚ) :
    TypingStats :=
  let timeElapsed : ℚ := (now - start) / 1000 / 60
  let wpm : ℤ := if 0 < timeElapsed then round ((wordsTyped typed : ℚ) / timeElapsed) else 0
  let correctChars := correctCharCount text typed
  let totalChars := typed.length
  let accuracy : ℤ :=
    if 0 < totalChars then round (((correctChars : ℚ) / (totalChars : ℚ)) * 100) else 100
  { wpm := wpm
    accuracy := accuracy
    timeTaken := (now - start) / 1000
    correctChars := correctChars
    incorrectChars := totalChars - correctChars
    totalChars := totalChars }

/-- The typing-relevant React state of `TypingInterface`.  The `characters`
highlighting array is pure presentation and is not modelled. -/
structure TIState where
  typedText : List Char
  currentIndex : ℕ
  startTime : Option ℚ
deriving DecidableEq, Repr

/-- `setStartTime(Date.now())` on the first keystroke: the new `startTime`
after any handled key event. -/
def startTimeAfter (s : TIState) (now : ℚ) : Option ℚ :=
  match s.startTime with
  | none => some now
  | some t => some t

/-- `handleKeyPress` of `TypingInterface`.  The returned `Option TypingStats`
is the argument of the `onComplete` call this event performs, if any.  All
reads inside one invocation see the pre-event state (React state closures);
in particular the completion checks read the old `startTime`. -/
def handleKeyPress (text : List Char) (isActive : Bool) (s : TIState) (k : Key)
    (now : ℚ) : TIState × Option TypingStats :=
  if !isActive then (s, none)
  else
    let st := startTimeAfter s now
    match k with
    | .backspace =>
      if 0 < s.currentIndex then
        ({ typedText := s.typedText.dropLast
           currentIndex := s.currentIndex - 1
           startTime := st }, none)
      else ({ s with startTime := st }, none)
    | .special => ({ s with startTime := st }, none)
    | .printable c =>
      if text.length ≤ s.currentIndex then
        match s.startTime with
        | some start =>
          ({ s with startTime := st },
           some (calculateStats text s.typedText s.currentIndex start now))
        | none => ({ s with startTime := st }, none)
      else
        let newTyped := s.typedText ++ [c]
        let newIndex := s.currentIndex + 1
        let completed : Option TypingStats :=
          if text.length ≤ newIndex then
            match s.startTime with
            | some start => some (calculateStats text newTyped newIndex start now)
            | none => none
          else none
        ({ typedText := newTyped, currentIndex := newIndex, startTime := st }, completed)

/-- `(currentIndex / text.length) * 100`: the progress value the periodic
interval reports through `onProgressUpdate`. -/
def reportedProgress (text : List Char) (s : TIState) : ℚ :=
  (s.currentIndex : ℚ) / (text.length : ℚ) * 100

/-! ## MultiplayerRace embedding -/

/-- `LobbyState.status` of `MultiplayerRace`. -/
inductive LobbyStatus where
  | waiting
  | countdown
  | racing
  | finished
deriving DecidableEq, Repr

/-- A `RaceUser` entry of `lobbyState.users`.  The nested `stats` object is
carried opaquely by the client and not needed by any claim, so it is elided. -/
structure RaceUser where
  id : String
  username : String
  progress : ℚ
  finished : Bool
  rank : Option ℕ
deriving DecidableEq, Repr

/-- One row of `currentStandings` / `raceResults.results`. -/
structure Standing where
  rank : ℕ
  username : String
  wpm : ℚ
  accuracy : ℚ
  timeTaken : ℚ
deriving DecidableEq, Repr

/-- A message the client emits over the socket.  `raceAgain` is listed in the
protocol (spec §6) although the client never sends it. -/
inductive OutMsg where
  | joinLobby (username : String) (reconnect : Bool)
  | leaveLobby
  | progressUpdate (progress : ℚ)
  | raceFinished (finalWPM : ℚ) (finalAccuracy : ℚ) (timeTaken : ℚ)
  | raceAgain
deriving DecidableEq, Repr

/-- The React state of `MultiplayerRace`.  `hasSocket` stands for `socket`
being non-null. -/
structure ClientState where
  hasSocket : Bool
  isConnected : Bool
  isReconnecting : Bool
  connectionError : Option String
  username : String
  hasJoined : Bool
  wasInLobby : Bool
  lobbyStatus : LobbyStatus
  lobbyUsers : List RaceUser
  countdown : ℕ
  raceText : String
  raceStartTime : Option ℚ
  myRank : Option ℕ
  currentStandings : List Standing
  raceResults : Option (List Standing × Bool)
deriving DecidableEq, Repr

/-- The `connect` socket handler: marks the connection live and re-emits
`joinLobby` with `reconnect: true` exactly under the source's guard
`wasInLobby && username.trim() && hasJoined` (a JS string is truthy iff
non-empty). -/
def onConnect (s : ClientState) : ClientState × List OutMsg :=
  let s' := { s with isConnected := true, isReconnecting := false, connectionError := none }
  if s.wasInLobby = true ∧ jsTrimStr s.username ≠ "" ∧ s.hasJoined = true then
    (s', [OutMsg.joinLobby (jsTrimStr s.username) true])
  else (s', [])

/-- The `joinLobby` click handler: guard `socket && username.trim() && isConnected`;
the emitted payload carries no `reconnect` field, modelled as `reconnect = false`. -/
def joinLobbyClick (s : ClientState) : ClientState × List OutMsg :=
  if s.hasSocket = true ∧ jsTrimStr s.username ≠ "" ∧ s.isConnected = true then
    ({ s with hasJoined := true, wasInLobby := true },
     [OutMsg.joinLobby (jsTrimStr s.username) false])
  else (s, [])

/-- `handleProgressUpdate`: under guard `socket && lobbyState.status === 'racing'
&& isConnected`, clamps the progress to `[0, 100]` with
`Math.max(0, Math.min(100, progress))` and emits it. -/
def handleProgressUpdate (s : ClientState) (progress : ℚ) : List OutMsg :=
  if s.hasSocket = true ∧ s.lobbyStatus = LobbyStatus.racing ∧ s.isConnected = true then
    [OutMsg.progressUpdate (max 0 (min 100 progress))]
  else []

/-- `handleRaceComplete`: guard `socket && raceStartTime && isConnected`; a
stats field that is not a number or is `NaN` is modelled as `none`; on
malformed stats the handler sets `connectionError` and returns without
emitting; otherwise it emits `raceFinished` with each field clamped. -/
def handleRaceComplete (s : ClientState) (statsWpm statsAccuracy : Option ℚ)
    (now : ℚ) : ClientState × List OutMsg :=
  match s.raceStartTime with
  | some rst =>
    if s.hasSocket = true ∧ s.isConnected = true then
      let timeTaken : ℚ := (now - rst) / 1000
      match statsWpm, statsAccuracy with
      | some w, some a =>
        (s, [OutMsg.raceFinished (max 0 w) (max 0 (min 100 a)) (max 0 timeTaken)])
      | some _, none =>
        ({ s with connectionError := some "Invalid race completion data. Please try again." }, [])
      | none, _ =>
        ({ s with connectionError := some "Invalid race completion data. Please try again." }, [])
    else (s, [])
  | none => (s, [])

/-- The `opponentProgress` socket handler: overwrites the matching user's
`progress` with the received value, unconditionally. -/
def opponentProgressHandler (s : ClientState) (userId : String) (progress : ℚ) :
    ClientState :=
  { s with lobbyUsers :=
      s.lobbyUsers.map (fun u => if u.id = userId then { u with progress := progress } else u) }

/-- JS `Array.prototype.join(', ')`. -/
def joinComma : List String → String
  | [] => ""
  | [s] => s
  | s :: rest => s ++ ", " ++ joinComma rest

/-- The `raceTimeout` socket handler: with a non-empty `unfinishedUsers` list
the displayed error is `` `${message}. Some players did not finish: ${unfinishedUsers.join(', ')}` ``;
otherwise `message || 'Race time limit reached.'`. -/
def raceTimeoutHandler (s : ClientState) (message : String)
    (unfinishedUsers : List String) : ClientState :=
  if unfinishedUsers ≠ [] then
    { s with
        connectionError :=
          some (message ++ ". Some players did not finish: " ++ joinComma unfinishedUsers) }
  else
    { s with
        connectionError :=
          some (if message = "" then "Race time limit reached." else message) }

/-- The Race Again button's `onClick`: resets the local race state and lobby
snapshot and clears `hasJoined`; it performs no socket emission at all. -/
def raceAgainClick (s : ClientState) : ClientState × List OutMsg :=
  ({ s with
      raceResults := none
      raceText := ""
      raceStartTime := none
      myRank := none
      hasJoined := false
      currentStandings := []
      lobbyUsers := []
      countdown := 0
      lobbyStatus := LobbyStatus.waiting }, [])

/-! ## Spec-modelled coordinator (the repository ships no server code) -/

/-- A `raceFinished` message as it reaches the coordinator: the sender's
participant id and the client-reported payload (wpm, accuracy,
elapsed seconds). -/
structure FinishMsg where
  pid : ℕ
  wordsPerMinute : ℚ
  accuracy : ℚ
  elapsedSeconds : ℚ
deriving DecidableEq, Repr

/-- Modelled from the spec: the coordinator's per-session finish log, absent
from `src/`.  Spec §4.2: a completion from a participant that has not yet
finished is accepted at most once and "the coordinator assigns the next
integer rank atomically"; §5: all mutations of one session are serialized in
arrival order.  The log records `(pid, rank)` pairs in acceptance order; an
already-finished sender is rejected (`StaleOperation`) and the log is
unchanged.  No field of the payload other than the sender's id is consulted. -/
def acceptCompletion (log : List (ℕ × ℕ)) (msg : FinishMsg) : List (ℕ × ℕ) :=
  if msg.pid ∈ log.map Prod.fst then log
  else log ++ [(msg.pid, log.length + 1)]

/-- Modelled from the spec: serialized processing of one arrival order
(= one interleaving, after the per-session serialization of §5) of
`raceFinished` messages, starting from a race with no finisher. -/
def runCompletions (msgs : List FinishMsg) : List (ℕ × ℕ) :=
  msgs.foldl acceptCompletion []

/-- Join errors of the session registry (spec §4.1 / §7). -/
inductive JoinError where
  | lobbyFull
  | nameTaken
deriving DecidableEq, Repr

/-- A roster slot of a race session: display name plus the `left` marker used
for participants who leave outside the Waiting state (spec §4.1). -/
structure Member where
  displayName : String
  left : Bool
deriving DecidableEq, Repr

/-- A race session as the registry sees it: lifecycle status and the roster,
ordered by join time (spec §3). -/
structure Session where
  status : LobbyStatus
  roster : List Member
deriving DecidableEq, Repr

/-- Modelled from the spec: `join` of the session registry, absent from
`src/`.  Spec §4.1: "create a new Participant if roster size < 6 and
displayName is unique; otherwise fail with `LobbyFull` or `NameTaken`";
§3 gives the roster capacity 6 and distinct display names. -/
def joinSession (sess : Session) (name : String) : Session × Option JoinError :=
  if 6 ≤ sess.roster.length then (sess, some JoinError.lobbyFull)
  else if name ∈ sess.roster.map Member.displayName then (sess, some JoinError.nameTaken)
  else ({ sess with roster := sess.roster ++ [⟨name, false⟩] }, none)

/-- Modelled from the spec: `leave` of the session registry, absent from
`src/`.  Spec §4.1: removal happens only from Waiting; during
Countdown/Racing/Finished the participant is marked `left` but keeps its
slot. -/
def leaveSession (sess : Session) (name : String) : Session :=
  if sess.status = LobbyStatus.waiting then
    { sess with roster := sess.roster.filter (fun m => m.displayName ≠ name) }
  else
    { sess with roster :=
        sess.roster.map (fun m => if m.displayName = name then { m with left := true } else m) }

/-- An operation on one session: a join or leave request, or a lifecycle
status transition of the state machine (spec §4.2). -/
inductive SessionOp where
  | join (name : String)
  | leave (name : String)
  | setStatus (st : LobbyStatus)
deriving DecidableEq, Repr

/-- Apply one operation to a session. -/
def applyOp (sess : Session) (op : SessionOp) : Session :=
  match op with
  | SessionOp.join n => (joinSession sess n).1
  | SessionOp.leave n => leaveSession sess n
  | SessionOp.setStatus st => { sess with status := st }

/-- Run a sequence of operations from the empty Waiting session a registry
creates on first join (spec §3). -/
def runOps (ops : List SessionOp) : Session :=
  ops.foldl applyOp ⟨LobbyStatus.waiting, []⟩

/-- Display names of the currently non-left roster members. -/
def activeNames (sess : Session) : List String :=
  (sess.roster.filter (fun m => !m.left)).map Member.displayName

/-- A roster entry as the race-timeout transition sees it. -/
structure RaceMember where
  displayName : String
  finished : Bool
deriving DecidableEq, Repr

/-- Modelled from the spec: the `unfinishedDisplayNames` list of the
coordinator's `raceTimeout` event, absent from `src/`.  Spec §4.2
(Racing → Finished on timeout) and §8: every participant that did not finish
appears in the list. -/
def unfinishedDisplayNames (roster : List RaceMember) : List String :=
  (roster.filter (fun p => !p.finished)).map RaceMember.displayName

/-- `seg` occurs contiguously inside `l`. -/
def containsSeg (seg l : List Char) : Prop :=
  ∃ pre post, l = pre ++ seg ++ post

/-! ## Concrete sample states used by witnesses and counterexamples -/

/-- A freshly connected client that has not joined a lobby. -/
def baseClient : ClientState :=
  { hasSocket := true
    isConnected := true
    isReconnecting := false
    connectionError := none
    username := "alice"
    hasJoined := false
    wasInLobby := false
    lobbyStatus := LobbyStatus.waiting
    lobbyUsers := []
    countdown := 0
    raceText := ""
    raceStartTime := none
    myRank := none
    currentStandings := []
    raceResults := none }

/-- A client that had joined a lobby and then lost the transport connection. -/
def reconnectClient : ClientState :=
  { baseClient with isConnected := false, isReconnecting := true,
                    hasJoined := true, wasInLobby := true }

/-- A client in the middle of a race. -/
def racingClient : ClientState :=
  { baseClient with lobbyStatus := LobbyStatus.racing, raceStartTime := some 1000,
                    hasJoined := true, wasInLobby := true }

/-- A racing client whose lobby shows one opponent at 50 % progress. -/
def opponentClient : ClientState :=
  { racingClient with
      lobbyUsers := [{ id := "u1", username := "bob", progress := 50,
                       finished := false, rank := none }] }

/-- A client looking at the results screen of a finished race. -/
def finishedClient : ClientState :=
  { baseClient with lobbyStatus := LobbyStatus.finished, hasJoined := true,
                    wasInLobby := true, myRank := some 1,
                    raceResults := some ([], true) }

/-- A session whose roster is at the capacity of 6. -/
def fullSession : Session :=
  { status := LobbyStatus.waiting
    roster := [⟨"a", false⟩, ⟨"b", false⟩, ⟨"c", false⟩,
               ⟨"d", false⟩, ⟨"e", false⟩, ⟨"f", false⟩] }

/-! ## Helper lemmas -/

lemma round_nonneg_of_nonneg {x : ℚ} (hx : 0 ≤ x) : 0 ≤ round x := by
  rw [round_eq]
  exact Int.floor_nonneg.mpr (by linarith)

lemma round_le_hundred {x : ℚ} (hx : x ≤ 100) : round x ≤ 100 := by
  rw [round_eq]
  have h : ⌊x + 1 / 2⌋ < 101 := Int.floor_lt.mpr (by push_cast; linarith)
  omega

lemma correctCharCount_le (text typed : List Char) :
    correctCharCount text typed ≤ typed.length := by
  unfold correctCharCount
  have h1 := List.countP_le_length (p := fun p : Char × Char => p.1 == p.2)
    (l := typed.zip text)
  have h2 : (typed.zip text).length ≤ typed.length := by
    rw [List.length_zip]; exact Nat.min_le_left _ _
  omega

/-! ## C10 — `calculateStats` arithmetic -/

/-- C10: for every typed string, passage text and start time, `calculateStats`
returns `correctChars + incorrectChars = totalChars = typed.length`, accuracy
`round ((correct / total) * 100)` when `totalChars > 0` and `100` when
`totalChars = 0`, hence accuracy in `[0, 100]`, and `wpm ≥ 0`. -/
theorem calculateStats_spec (text typed : List Char) (idx : ℕ) (start now : ℚ) :
    (calculateStats text typed idx start now).correctChars +
        (calculateStats text typed idx start now).incorrectChars =
      (calculateStats text typed idx start now).totalChars ∧
    (calculateStats text typed idx start now).totalChars = typed.length ∧
    (0 < typed.length → (calculateStats text typed idx start now).accuracy =
      round ((((calculateStats text typed idx start now).correctChars : ℚ) /
        (typed.length : ℚ)) * 100)) ∧
    (typed.length = 0 → (calculateStats text typed idx start now).accuracy = 100) ∧
    0 ≤ (calculateStats text typed idx start now).accuracy ∧
    (calculateStats text typed idx start now).accuracy ≤ 100 ∧
    0 ≤ (calculateStats text typed idx start now).wpm := by
  have hle := correctCharCount_le text typed
  simp only [calculateStats]
  refine ⟨Nat.add_sub_cancel' hle, trivial, ?_, ?_, ?_, ?_, ?_⟩
  · intro hpos
    simp [hpos]
  · intro hzero
    simp [hzero]
  · by_cases hpos : 0 < typed.length
    · simp only [if_pos hpos]
      exact round_nonneg_of_nonneg (by positivity)
    · simp only [if_neg hpos]; norm_num
  · by_cases hpos : 0 < typed.length
    · simp only [if_pos hpos]
      refine round_le_hundred ?_
      have ht : (0 : ℚ) < (typed.length : ℚ) := by exact_mod_cast hpos
      have hdiv : ((correctCharCount text typed : ℚ) / (typed.length : ℚ)) ≤ 1 := by
        rw [div_le_one ht]; exact_mod_cast hle
      linarith
    · simp only [if_neg hpos]; norm_num
  · by_cases hte : 0 < (now - start) / 1000 / 60
    · simp only [if_pos hte]
      exact round_nonneg_of_nonneg (by positivity)
    · simp only [if_neg hte]; norm_num

/-- Witness for C10 at a concrete input. -/
theorem calculateStats_spec_witness :
    0 < List.length ['a', 'x'] ∧
    (calculateStats ['a', 'b'] ['a', 'x'] 2 0 60000).accuracy =
      round ((((calculateStats ['a', 'b'] ['a', 'x'] 2 0 60000).correctChars : ℚ) /
        (List.length ['a', 'x'] : ℚ)) * 100) :=
  ⟨by decide, (calculateStats_spec ['a', 'b'] ['a', 'x'] 2 0 60000).2.2.1 (by decide)⟩

/-! ## C7 — `handleProgressUpdate` clamping and guard -/

/-- C7: every `progressUpdate` the client emits carries
`Math.max(0, Math.min(100, progress))`, a value in `[0, 100]`, and a message
is emitted only while the status is racing and the connection is live. -/
theorem handleProgressUpdate_spec (s : ClientState) (p : ℚ) :
    (∀ m ∈ handleProgressUpdate s p,
      m = OutMsg.progressUpdate (max 0 (min 100 p)) ∧
      0 ≤ max 0 (min 100 p) ∧ max 0 (min 100 p) ≤ 100) ∧
    (handleProgressUpdate s p ≠ [] →
      s.lobbyStatus = LobbyStatus.racing ∧ s.isConnected = true ∧ s.hasSocket = true) := by
  unfold handleProgressUpdate
  by_cases hg : s.hasSocket = true ∧ s.lobbyStatus = LobbyStatus.racing ∧ s.isConnected = true
  · rw [if_pos hg]
    refine ⟨?_, fun _ => ⟨hg.2.1, hg.2.2, hg.1⟩⟩
    intro m hm
    rw [List.mem_singleton] at hm
    subst hm
    exact ⟨rfl, le_max_left _ _, max_le (by norm_num) (min_le_left _ _)⟩
  · rw [if_neg hg]
    exact ⟨fun m hm => absurd hm (List.not_mem_nil m), fun h => absurd rfl h⟩

/-- Witness for C7: a racing, connected client emitting an out-of-range value. -/
theorem handleProgressUpdate_spec_witness :
    OutMsg.progressUpdate (max 0 (min 100 (150 : ℚ))) =
      OutMsg.progressUpdate (max 0 (min 100 (150 : ℚ))) ∧
    0 ≤ max 0 (min 100 (150 : ℚ)) ∧ max 0 (min 100 (150 : ℚ)) ≤ 100 :=
  (handleProgressUpdate_spec racingClient 150).1
    (OutMsg.progressUpdate (max 0 (min 100 (150 : ℚ)))) (by simp [handleProgressUpdate, racingClient, baseClient])

/-! ## C4 — reconnection re-join on the `connect` event -/

/-- C4: on every socket `connect` event the client emits `joinLobby` with a
reconnect marker if and only if it had already joined a lobby before the
disconnect (`wasInLobby` and `hasJoined` set and the username non-empty after
trimming); the emitted message carries the trimmed username and
`reconnect: true`. -/
theorem onConnect_spec (s : ClientState) :
    ((onConnect s).2 ≠ [] ↔
      s.wasInLobby = true ∧ jsTrimStr s.username ≠ "" ∧ s.hasJoined = true) ∧
    ((onConnect s).2 = [OutMsg.joinLobby (jsTrimStr s.username) true] ∨
      (onConnect s).2 = []) ∧
    ((onConnect s).2 ≠ [] →
      (onConnect s).2 = [OutMsg.joinLobby (jsTrimStr s.username) true]) := by
  unfold onConnect
  by_cases hg : s.wasInLobby = true ∧ jsTrimStr s.username ≠ "" ∧ s.hasJoined = true
  · rw [if_pos hg]
    exact ⟨⟨fun _ => hg, fun _ => by simp⟩, Or.inl rfl, fun _ => rfl⟩
  · rw [if_neg hg]
    exact ⟨⟨fun h => absurd rfl h, fun h => absurd h hg⟩, Or.inr rfl, fun h => absurd rfl h⟩

/-- Witness for C4: a client that was in a lobby re-emits `joinLobby` with the
reconnect marker when the socket reconnects. -/
theorem onConnect_spec_witness :
    (onConnect reconnectClient).2 =
      [OutMsg.joinLobby (jsTrimStr reconnectClient.username) true] :=
  (onConnect_spec reconnectClient).2.2
    ((onConnect_spec reconnectClient).1.mpr ⟨rfl, by decide, rfl⟩)

/-! ## C3 — `handleRaceComplete` clamping and malformed-stats rejection -/

/-- C3: every `raceFinished` message the client emits carries
`wordsPerMinute ≥ 0`, `accuracy ∈ [0, 100]` and `elapsedSeconds ≥ 0`, each
obtained by clamping before sending; if the computed stats are malformed
(wpm or accuracy non-numeric or NaN, modelled as `none`), no `raceFinished`
is emitted, the race state is left unchanged, and — whenever the handler's
emission guard held — an error is surfaced via `connectionError`. -/
theorem handleRaceComplete_spec (s : ClientState) (w a : Option ℚ) (now : ℚ) :
    ((handleRaceComplete s w a now).2 ≠ [] →
      ∃ w0 a0 rst, w = some w0 ∧ a = some a0 ∧ s.raceStartTime = some rst ∧
        (handleRaceComplete s w a now).2 =
          [OutMsg.raceFinished (max 0 w0) (max 0 (min 100 a0))
            (max 0 ((now - rst) / 1000))] ∧
        0 ≤ max 0 w0 ∧ 0 ≤ max 0 (min 100 a0) ∧ max 0 (min 100 a0) ≤ 100 ∧
        0 ≤ max 0 ((now - rst) / 1000)) ∧
    ((w = none ∨ a = none) →
      (handleRaceComplete s w a now).2 = [] ∧
      (handleRaceComplete s w a now).1.raceText = s.raceText ∧
      (handleRaceComplete s w a now).1.raceStartTime = s.raceStartTime ∧
      (handleRaceComplete s w a now).1.lobbyStatus = s.lobbyStatus ∧
      (handleRaceComplete s w a now).1.lobbyUsers = s.lobbyUsers ∧
      (handleRaceComplete s w a now).1.myRank = s.myRank ∧
      (handleRaceComplete s w a now).1.hasJoined = s.hasJoined ∧
      (s.raceStartTime ≠ none → s.hasSocket = true → s.isConnected = true →
        (handleRaceComplete s w a now).1.connectionError =
          some "Invalid race completion data. Please try again.")) := by
  cases hrst : s.raceStartTime with
  | none =>
    have hr : handleRaceComplete s w a now = (s, []) := by
      unfold handleRaceComplete; rw [hrst]
    rw [hr]
    exact ⟨fun h => absurd rfl h,
      fun _ => ⟨rfl, rfl, hrst, rfl, rfl, rfl, rfl, fun hne _ _ => absurd rfl hne⟩⟩
  | some rst =>
    by_cases hg : s.hasSocket = true ∧ s.isConnected = true
    · cases w with
      | none =>
        have hr : handleRaceComplete s none a now =
            ({ s with
                connectionError := some "Invalid race completion data. Please try again." },
              []) := by
          unfold handleRaceComplete; simp only [hrst]; rw [if_pos hg]
        rw [hr]
        exact ⟨fun h => absurd rfl h,
          fun _ => ⟨rfl, rfl, hrst, rfl, rfl, rfl, rfl, fun _ _ _ => rfl⟩⟩
      | some w0 =>
        cases a with
        | none =>
          have hr : handleRaceComplete s (some w0) none now =
              ({ s with
                  connectionError := some "Invalid race completion data. Please try again." },
                []) := by
            unfold handleRaceComplete; simp only [hrst]; rw [if_pos hg]
          rw [hr]
          exact ⟨fun h => absurd rfl h,
            fun _ => ⟨rfl, rfl, hrst, rfl, rfl, rfl, rfl, fun _ _ _ => rfl⟩⟩
        | some a0 =>
          have hr : handleRaceComplete s (some w0) (some a0) now =
              (s, [OutMsg.raceFinished (max 0 w0) (max 0 (min 100 a0))
                (max 0 ((now - rst) / 1000))]) := by
            unfold handleRaceComplete; simp only [hrst]; rw [if_pos hg]
          rw [hr]
          refine ⟨fun _ => ⟨w0, a0, rst, rfl, rfl, rfl, rfl, le_max_left _ _,
            le_max_left _ _, max_le (by norm_num) (min_le_left _ _), le_max_left _ _⟩,
            fun hmal => ?_⟩
          rcases hmal with h | h <;> exact absurd h (by simp)
    · have hr : handleRaceComplete s w a now = (s, []) := by
        unfold handleRaceComplete; simp only [hrst]; rw [if_neg hg]
      rw [hr]
      refine ⟨fun h => absurd rfl h, fun _ => ?_⟩
      exact ⟨rfl, rfl, hrst, rfl, rfl, rfl, rfl, fun _ hs hc => absurd ⟨hs, hc⟩ hg⟩

/-- Witness for C3: a well-formed completion emits the clamped payload, and a
malformed one (non-numeric wpm) emits nothing and surfaces the error. -/
theorem handleRaceComplete_spec_witness :
    (handleRaceComplete racingClient (some 50) (some 120) 2000).2 =
      [OutMsg.raceFinished (max 0 50) (max 0 (min 100 120))
        (max 0 ((2000 - 1000) / 1000))] ∧
    (handleRaceComplete racingClient none (some 50) 2000).2 = [] ∧
    (handleRaceComplete racingClient none (some 50) 2000).1.connectionError =
      some "Invalid race completion data. Please try again." := by
  have h1 := (handleRaceComplete_spec racingClient (some 50) (some 120) 2000).1 (by decide)
  have h2 := (handleRaceComplete_spec racingClient none (some 50) 2000).2 (Or.inl rfl)
  obtain ⟨w0, a0, rst, hw, ha, hr, hmsgs, -⟩ := h1
  have hw0 : w0 = 50 := by injection hw with h; exact h.symm
  have ha0 : a0 = 120 := by injection ha with h; exact h.symm
  have hrst : rst = 1000 := by
    have : racingClient.raceStartTime = some 1000 := rfl
    rw [this] at hr
    injection hr with h; exact h.symm
  subst hw0; subst ha0; subst hrst
  exact ⟨hmsgs, h2.1, h2.2.2.2.2.2.2.2 (by decide) rfl rfl⟩

/-! ## C1 — rank assignment: contiguous, duplicate-free, in acceptance order -/

lemma foldl_acceptCompletion_ranks (msgs : List FinishMsg) (log : List (ℕ × ℕ))
    (h : log.map Prod.snd = List.range' 1 log.length) :
    (msgs.foldl acceptCompletion log).map Prod.snd =
      List.range' 1 (msgs.foldl acceptCompletion log).length := by
  induction msgs generalizing log with
  | nil => exact h
  | cons m rest ih =>
    simp only [List.foldl_cons]
    apply ih
    unfold acceptCompletion
    by_cases hmem : m.pid ∈ log.map Prod.fst
    · rw [if_pos hmem]; exact h
    · rw [if_neg hmem]
      rw [List.map_append, List.length_append, h]
      simp [List.range'_concat]
      omega

lemma foldl_acceptCompletion_pid_only (msgs msgs' : List FinishMsg)
    (log : List (ℕ × ℕ)) (h : msgs'.map FinishMsg.pid = msgs.map FinishMsg.pid) :
    msgs'.foldl acceptCompletion log = msgs.foldl acceptCompletion log := by
  induction msgs generalizing msgs' log with
  | nil =>
    cases msgs' with
    | nil => rfl
    | cons _ _ => simp at h
  | cons m rest ih =>
    cases msgs' with
    | nil => simp at h
    | cons m' rest' =>
      simp only [List.map_cons, List.cons.injEq] at h
      simp only [List.foldl_cons]
      have hstep : acceptCompletion log m' = acceptCompletion log m := by
        unfold acceptCompletion; rw [h.1]
      rw [hstep]
      exact ih rest' _ h.2

/-- C1: for every arrival order of `raceFinished` messages (after per-session
serialization, every interleaving is one such order), the ranks recorded in
the coordinator's finish log are exactly `[1, ..., k]` for `k` accepted
completions, listed in acceptance order — contiguous from 1, no duplicates,
no gaps, ordered by acceptance; and the outcome depends only on the sequence
of sender ids, never on the client-reported payloads (wpm, accuracy,
elapsed seconds). -/
theorem runCompletions_ranks (msgs : List FinishMsg) :
    (runCompletions msgs).map Prod.snd =
      List.range' 1 (runCompletions msgs).length ∧
    (∀ msgs' : List FinishMsg, msgs'.map FinishMsg.pid = msgs.map FinishMsg.pid →
      runCompletions msgs' = runCompletions msgs) := by
  constructor
  · exact foldl_acceptCompletion_ranks msgs [] rfl
  · intro msgs' h
    exact foldl_acceptCompletion_pid_only msgs msgs' [] h

/-- Witness for C1: two distinct finishers and a duplicate completion; ranks
are `[1, 2]` in acceptance order and ignore the reported elapsed times. -/
theorem runCompletions_ranks_witness :
    (runCompletions [⟨3, 80, 97, 45⟩, ⟨5, 60, 92, 60⟩, ⟨3, 99, 99, 1⟩]).map Prod.snd =
      List.range' 1
        (runCompletions [⟨3, 80, 97, 45⟩, ⟨5, 60, 92, 60⟩, ⟨3, 99, 99, 1⟩]).length ∧
    runCompletions [⟨3, 1, 1, 999⟩, ⟨5, 2, 2, 0⟩, ⟨3, 0, 0, 0⟩] =
      runCompletions [⟨3, 80, 97, 45⟩, ⟨5, 60, 92, 60⟩, ⟨3, 99, 99, 1⟩] :=
  ⟨(runCompletions_ranks [⟨3, 80, 97, 45⟩, ⟨5, 60, 92, 60⟩, ⟨3, 99, 99, 1⟩]).1,
   (runCompletions_ranks [⟨3, 80, 97, 45⟩, ⟨5, 60, 92, 60⟩, ⟨3, 99, 99, 1⟩]).2
     [⟨3, 1, 1, 999⟩, ⟨5, 2, 2, 0⟩, ⟨3, 0, 0, 0⟩] (by decide)⟩

/-! ## C5 — roster capacity and display-name uniqueness -/

/-- The invariant maintained by every session operation: bounded roster and
pairwise-distinct display names across the whole roster. -/
def sessionInv (sess : Session) : Prop :=
  sess.roster.length ≤ 6 ∧ (sess.roster.map Member.displayName).Nodup

lemma applyOp_preserves_inv (sess : Session) (op : SessionOp)
    (h : sessionInv sess) : sessionInv (applyOp sess op) := by
  cases op with
  | join n =>
    show sessionInv (joinSession sess n).1
    unfold joinSession
    by_cases h6 : 6 ≤ sess.roster.length
    · rw [if_pos h6]; exact h
    · rw [if_neg h6]
      by_cases hn : n ∈ sess.roster.map Member.displayName
      · rw [if_pos hn]; exact h
      · rw [if_neg hn]
        constructor
        · simp only [List.length_append, List.length_singleton]
          omega
        · rw [List.map_append]
          simp [List.nodup_append, h.2, hn]
  | leave n =>
    show sessionInv (leaveSession sess n)
    unfold leaveSession
    by_cases hw : sess.status = LobbyStatus.waiting
    · rw [if_pos hw]
      constructor
      · calc (sess.roster.filter (fun m => m.displayName ≠ n)).length
            ≤ sess.roster.length := List.length_filter_le _ _
          _ ≤ 6 := h.1
      · exact h.2.sublist ((List.filter_sublist _).map _)
    · rw [if_neg hw]
      constructor
      · simpa using h.1
      · have hmap :
            (sess.roster.map
              (fun m => if m.displayName = n then { m with left := true } else m)).map
                Member.displayName = sess.roster.map Member.displayName := by
          rw [List.map_map]
          refine List.map_congr_left ?_
          intro m _
          by_cases hm : m.displayName = n <;> simp [hm]
        rw [hmap]
        exact h.2
  | setStatus st => exact h

lemma foldl_applyOp_inv (ops : List SessionOp) (sess : Session)
    (h : sessionInv sess) : sessionInv (ops.foldl applyOp sess) := by
  induction ops generalizing sess with
  | nil => exact h
  | cons op rest ih =>
    simp only [List.foldl_cons]
    exact ih _ (applyOp_preserves_inv sess op h)

/-- C5: for every sequence of join/leave (and status) operations on one
session, the roster never exceeds 6 and display names of non-left
participants stay pairwise distinct; a join against a full roster fails with
`LobbyFull` and a join with a taken name fails with `NameTaken`, in both
cases leaving the session unchanged. -/
theorem session_join_leave_spec (ops : List SessionOp) :
    (runOps ops).roster.length ≤ 6 ∧
    (activeNames (runOps ops)).Nodup ∧
    (∀ (sess : Session) (name : String), 6 ≤ sess.roster.length →
      joinSession sess name = (sess, some JoinError.lobbyFull)) ∧
    (∀ (sess : Session) (name : String), sess.roster.length < 6 →
      name ∈ sess.roster.map Member.displayName →
      joinSession sess name = (sess, some JoinError.nameTaken)) := by
  have hinv : sessionInv (runOps ops) :=
    foldl_applyOp_inv ops ⟨LobbyStatus.waiting, []⟩ ⟨by simp, List.nodup_nil⟩
  refine ⟨hinv.1, ?_, ?_, ?_⟩
  · exact hinv.2.sublist ((List.filter_sublist _).map _)
  · intro sess name h6
    unfold joinSession
    rw [if_pos h6]
  · intro sess name h6 hn
    unfold joinSession
    rw [if_neg (by omega), if_pos hn]

/-- Witness for C5: a short operation sequence, a full session rejecting a
seventh joiner, and a duplicate name rejected. -/
theorem session_join_leave_spec_witness :
    (runOps [SessionOp.join "a", SessionOp.join "b", SessionOp.leave "a"]).roster.length ≤ 6 ∧
    joinSession fullSession "g" = (fullSession, some JoinError.lobbyFull) ∧
    joinSession ⟨LobbyStatus.waiting, [⟨"a", false⟩]⟩ "a" =
      (⟨LobbyStatus.waiting, [⟨"a", false⟩]⟩, some JoinError.nameTaken) :=
  ⟨(session_join_leave_spec [SessionOp.join "a", SessionOp.join "b", SessionOp.leave "a"]).1,
   (session_join_leave_spec []).2.2.1 fullSession "g" (by decide),
   (session_join_leave_spec []).2.2.2 ⟨LobbyStatus.waiting, [⟨"a", false⟩]⟩ "a"
     (by decide) (by decide)⟩

/-! ## C8 — race timeout names every unfinished participant -/

lemma containsSeg_append_left (seg l x : List Char) (h : containsSeg seg l) :
    containsSeg seg (x ++ l) := by
  obtain ⟨p, q, rfl⟩ := h
  exact ⟨x ++ p, q, by simp⟩

lemma joinComma_cons_cons (s t : String) (rest : List String) :
    joinComma (s :: t :: rest) = s ++ ", " ++ joinComma (t :: rest) := rfl

lemma containsSeg_joinComma (name : String) (names : List String)
    (h : name ∈ names) : containsSeg name.data (joinComma names).data := by
  induction names with
  | nil => simp at h
  | cons s rest ih =>
    cases rest with
    | nil =>
      rw [List.mem_singleton] at h
      subst h
      exact ⟨[], [], by simp [joinComma]⟩
    | cons t rest' =>
      rcases List.mem_cons.mp h with rfl | hmem
      · refine ⟨[], (", " ++ joinComma (t :: rest')).data, ?_⟩
        rw [joinComma_cons_cons]
        simp [String.data_append]
      · have hrec := ih hmem
        rw [joinComma_cons_cons]
        have hd : (s ++ ", " ++ joinComma (t :: rest')).data =
            (s ++ ", ").data ++ (joinComma (t :: rest')).data := by
          rw [String.data_append]
        rw [hd]
        exact containsSeg_append_left _ _ _ hrec

/-- C8: when the race time limit fires, every participant that did not finish
is named in `unfinishedDisplayNames`, and the client's `raceTimeout` handler,
on any non-empty name list (a list it receives is non-empty as soon as one
name is in it), displays a message that contains every listed display name. -/
theorem raceTimeout_names_spec :
    (∀ (roster : List RaceMember) (p : RaceMember), p ∈ roster →
      p.finished = false → p.displayName ∈ unfinishedDisplayNames roster) ∧
    (∀ (s : ClientState) (msg : String) (names : List String) (name : String),
      name ∈ names →
      ∃ e, (raceTimeoutHandler s msg names).connectionError = some e ∧
        containsSeg name.data e.data) := by
  constructor
  · intro roster p hmem hnf
    unfold unfinishedDisplayNames
    exact List.mem_map_of_mem _ (List.mem_filter.mpr ⟨hmem, by simp [hnf]⟩)
  · intro s msg names name hin
    have hne : names ≠ [] := List.ne_nil_of_mem hin
    unfold raceTimeoutHandler
    rw [if_pos hne]
    refine ⟨_, rfl, ?_⟩
    have hdata : (msg ++ ". Some players did not finish: " ++ joinComma names).data =
        (msg ++ ". Some players did not finish: ").data ++ (joinComma names).data := by
      rw [String.data_append]
    rw [hdata]
    exact containsSeg_append_left _ _ _ (containsSeg_joinComma _ _ hin)

/-- Witness for C8: a roster with one unfinished participant; the displayed
message contains that participant's name. -/
theorem raceTimeout_names_spec_witness :
    (⟨"dave", false⟩ : RaceMember).displayName ∈
      unfinishedDisplayNames [⟨"carol", true⟩, ⟨"dave", false⟩] ∧
    ∃ e, (raceTimeoutHandler baseClient "Race time limit reached"
        ["dave"]).connectionError = some e ∧
      containsSeg (String.data "dave") e.data :=
  ⟨raceTimeout_names_spec.1 [⟨"carol", true⟩, ⟨"dave", false⟩] ⟨"dave", false⟩
    (by decide) rfl,
   raceTimeout_names_spec.2 baseClient "Race time limit reached" ["dave"] "dave"
    (by decide)⟩

/-! ## C2 — progress monotonicity fails on the client -/

/-- Counterexample to C2: after typing one character of a two-character
passage, a Backspace strictly lowers the reported progress (50 → 0); and the
`opponentProgress` handler overwrites a stored progress of 50 with a received
10, so observed values for another participant decrease as well. -/
theorem progress_monotone_counterexample :
    reportedProgress ['a', 'b']
        (handleKeyPress ['a', 'b'] true
          ((handleKeyPress ['a', 'b'] true ⟨[], 0, none⟩ (Key.printable 'a') 0).1)
          Key.backspace 1).1 <
      reportedProgress ['a', 'b']
        ((handleKeyPress ['a', 'b'] true ⟨[], 0, none⟩ (Key.printable 'a') 0).1) ∧
    (opponentProgressHandler opponentClient "u1" 10).lobbyUsers.map RaceUser.progress =
      [10] ∧
    opponentClient.lobbyUsers.map RaceUser.progress = [50] ∧ (10 : ℚ) < 50 := by
  have h1 : (handleKeyPress ['a', 'b'] true ⟨[], 0, none⟩ (Key.printable 'a') 0).1 =
      (⟨['a'], 1, some 0⟩ : TIState) := rfl
  have h2 : (handleKeyPress ['a', 'b'] true (⟨['a'], 1, some 0⟩ : TIState)
      Key.backspace 1).1 = (⟨[], 0, some 0⟩ : TIState) := rfl
  refine ⟨?_, ?_, ?_, by norm_num⟩
  · rw [h1, h2]
    simp only [reportedProgress]
    norm_num
  · simp [opponentProgressHandler, opponentClient, racingClient, baseClient]
  · simp [opponentClient, racingClient, baseClient]

/-- C2 amended: the client does not enforce monotone progress.  A Backspace
keystroke during a race strictly decreases the progress value the client
reports for itself, and the `opponentProgress` handler stores exactly the
last received value for the targeted participant (last-write-wins, no
monotonicity guard), leaving all other participants untouched. -/
theorem progress_not_monotone_amended :
    (∀ (text : List Char) (s : TIState) (now : ℚ),
      0 < s.currentIndex → 0 < text.length →
      reportedProgress text (handleKeyPress text true s Key.backspace now).1 <
        reportedProgress text s) ∧
    (∀ (s : ClientState) (uid : String) (p : ℚ) (u : RaceUser),
      u ∈ (opponentProgressHandler s uid p).lobbyUsers →
      (u.id = uid → u.progress = p) ∧
      (u.id ≠ uid → u ∈ s.lobbyUsers)) := by
  constructor
  · intro text s now hpos hlen0
    have hidx : (handleKeyPress text true s Key.backspace now).1.currentIndex =
        s.currentIndex - 1 := by
      unfold handleKeyPress
      simp [hpos]
    unfold reportedProgress
    rw [hidx]
    have hlen : (0 : ℚ) < (text.length : ℚ) := by exact_mod_cast hlen0
    have hlt : ((s.currentIndex - 1 : ℕ) : ℚ) < (s.currentIndex : ℚ) := by
      exact_mod_cast Nat.sub_lt hpos one_pos
    have hdiv : ((s.currentIndex - 1 : ℕ) : ℚ) / (text.length : ℚ) <
        (s.currentIndex : ℚ) / (text.length : ℚ) := by
      apply div_lt_div_of_pos_right hlt hlen
    nlinarith
  · intro s uid p u hmem
    unfold opponentProgressHandler at hmem
    simp only [List.mem_map] at hmem
    obtain ⟨u0, hu0, hequ⟩ := hmem
    by_cases h : u0.id = uid
    · rw [if_pos h] at hequ
      constructor
      · intro _
        rw [← hequ]
      · intro hne
        exact absurd (by rw [← hequ]; exact h) hne
    · rw [if_neg h] at hequ
      subst hequ
      exact ⟨fun hid => absurd hid h, fun _ => hu0⟩

/-- Witness for C2's amended statement: concrete Backspace regression and a
concrete opponent overwrite. -/
theorem progress_not_monotone_amended_witness :
    reportedProgress ['a', 'b']
        (handleKeyPress ['a', 'b'] true (⟨['a', 'b'], 2, some 0⟩ : TIState)
          Key.backspace 9).1 <
      reportedProgress ['a', 'b'] (⟨['a', 'b'], 2, some 0⟩ : TIState) ∧
    ({ id := "u1", username := "bob", progress := 10, finished := false,
       rank := none } : RaceUser).progress = (10 : ℚ) := by
  constructor
  · exact progress_not_monotone_amended.1 ['a', 'b'] ⟨['a', 'b'], 2, some 0⟩ 9
      (by decide) (by decide)
  · exact (progress_not_monotone_amended.2 opponentClient "u1" 10
      { id := "u1", username := "bob", progress := 10, finished := false, rank := none }
      (by simp [opponentProgressHandler, opponentClient, racingClient, baseClient])).1 rfl

/-! ## C6 — Race Again resets locally and sends no message -/

/-- Counterexample to C6: clicking Race Again on the results screen emits no
socket message at all — in particular no `raceAgain` reaches the
coordinator. -/
theorem raceAgain_no_message_counterexample :
    (raceAgainClick finishedClient).2 = [] ∧
    OutMsg.raceAgain ∉ (raceAgainClick finishedClient).2 := by
  constructor
  · rfl
  · simp [raceAgainClick]

/-- C6 amended: the Race Again button conveys nothing to the coordinator; it
only resets the client's local race state (results, passage text, start time,
rank, standings, `hasJoined`, and an empty Waiting lobby snapshot), so the
participant must join the lobby again explicitly. -/
theorem raceAgain_local_reset (s : ClientState) :
    (raceAgainClick s).2 = [] ∧
    (raceAgainClick s).1.raceResults = none ∧
    (raceAgainClick s).1.raceText = "" ∧
    (raceAgainClick s).1.raceStartTime = none ∧
    (raceAgainClick s).1.myRank = none ∧
    (raceAgainClick s).1.hasJoined = false ∧
    (raceAgainClick s).1.currentStandings = [] ∧
    (raceAgainClick s).1.lobbyUsers = [] ∧
    (raceAgainClick s).1.countdown = 0 ∧
    (raceAgainClick s).1.lobbyStatus = LobbyStatus.waiting ∧
    (raceAgainClick s).1.username = s.username ∧
    (raceAgainClick s).1.wasInLobby = s.wasInLobby ∧
    (raceAgainClick s).1.isConnected = s.isConnected :=
  ⟨rfl, rfl, rfl, rfl, rfl, rfl, rfl, rfl, rfl, rfl, rfl, rfl, rfl⟩

/-! ## C9 — completion fires on character count, with a first-keystroke gap -/

/-- Counterexample to C9: on a one-character passage the very first keystroke
brings the typed count to `text.length`, but `startTime` is still unset inside
that event (React state updates are asynchronous), so `onComplete` is not
invoked on that keystroke. -/
theorem completion_missed_counterexample :
    (handleKeyPress ['a'] true ⟨[], 0, none⟩ (Key.printable 'x') 0).2 = none ∧
    (handleKeyPress ['a'] true ⟨[], 0, none⟩ (Key.printable 'x') 0).1.currentIndex =
      List.length ['a'] ∧
    (handleKeyPress ['a'] true ⟨[], 0, none⟩ (Key.printable 'x') 0).1.typedText.length =
      List.length ['a'] := by decide

/-- C9 amended: `onComplete` is never invoked while fewer than `text.length`
characters are typed (the handler preserves `typedText.length = currentIndex`),
and on any printable keystroke that brings the count to `text.length` while the
timer is already running (`startTime` set, i.e. not the very first keystroke of
the race) `onComplete` is invoked with the stats of the typed text — for every
character, correct or not, so completion is decided by count alone. -/
theorem completion_by_count_amended :
    (∀ (text : List Char) (act : Bool) (s : TIState) (k : Key) (now : ℚ)
      (st : TypingStats), (handleKeyPress text act s k now).2 = some st →
      text.length ≤ (handleKeyPress text act s k now).1.currentIndex) ∧
    (∀ (text : List Char) (act : Bool) (s : TIState) (k : Key) (now : ℚ),
      s.typedText.length = s.currentIndex →
      (handleKeyPress text act s k now).1.typedText.length =
        (handleKeyPress text act s k now).1.currentIndex) ∧
    (∀ (text : List Char) (s : TIState) (c : Char) (now t : ℚ),
      s.startTime = some t → s.currentIndex + 1 = text.length →
      (handleKeyPress text true s (Key.printable c) now).2 =
        some (calculateStats text (s.typedText ++ [c]) (s.currentIndex + 1) t now)) := by
  refine ⟨?_, ?_, ?_⟩
  · intro text act s k now st h
    cases act with
    | false => simp [handleKeyPress] at h
    | true =>
      cases k with
      | backspace => by_cases hp : 0 < s.currentIndex <;> simp [handleKeyPress, hp] at h
      | special => simp [handleKeyPress] at h
      | printable c =>
        by_cases hend : text.length ≤ s.currentIndex
        · cases hst : s.startTime with
          | none => simp [handleKeyPress, hend, hst] at h
          | some t0 => simp [handleKeyPress, hend, hst]
        · by_cases hend2 : text.length ≤ s.currentIndex + 1
          · simpa [handleKeyPress, hend] using hend2
          · simp [handleKeyPress, hend, hend2] at h
  · intro text act s k now hinv
    cases act with
    | false => simpa [handleKeyPress] using hinv
    | true =>
      cases k with
      | backspace =>
        by_cases hp : 0 < s.currentIndex
        · simp [handleKeyPress, hp, List.length_dropLast, hinv]
        · simpa [handleKeyPress, hp] using hinv
      | special => simpa [handleKeyPress] using hinv
      | printable c =>
        by_cases hend : text.length ≤ s.currentIndex
        · cases hst : s.startTime with
          | none => simpa [handleKeyPress, hend, hst] using hinv
          | some t0 => simpa [handleKeyPress, hend, hst] using hinv
        · simp [handleKeyPress, hend, hinv]
  · intro text s c now t hst hlen
    have hend : ¬ text.length ≤ s.currentIndex := by omega
    have hend2 : text.length ≤ s.currentIndex + 1 := by omega
    simp [handleKeyPress, hend, hend2, hst]

/-- Witness for C9's amended statement: an incorrect final character still
completes a two-character passage once the timer runs. -/
theorem completion_by_count_amended_witness :
    (handleKeyPress ['a', 'b'] true (⟨['a'], 1, some 0⟩ : TIState)
        (Key.printable 'x') 7).2 =
      some (calculateStats ['a', 'b'] (['a'] ++ ['x']) (1 + 1) 0 7) ∧
    List.length ['a', 'b'] ≤
      (handleKeyPress ['a', 'b'] true (⟨['a'], 1, some 0⟩ : TIState)
        (Key.printable 'x') 7).1.currentIndex := by
  have h3 := completion_by_count_amended.2.2 ['a', 'b'] ⟨['a'], 1, some 0⟩ 'x' 7 0 rfl
    (by decide)
  exact ⟨h3, completion_by_count_amended.1 ['a', 'b'] true ⟨['a'], 1, some 0⟩
    (Key.printable 'x') 7 _ h3⟩

end MonkeyMash
